import Mathlib

/-!
# Verification of the `prost-serde-derive` deserialization engine

Shallow embedding of the decoder that `src/derive/src/deserialize.rs`
generates for a named-field struct.  The macro emits, per struct, a
`visit_map` loop (accumulation over the key/value pairs of the field
source) followed by a narrowing block (one `let` per field, in field
declaration order).  We embed the *generated* program: the schema data
that the macro splices into the generated code (field name, protobuf
type, repetition modifier, optional default expression, and the two
`DeriveMeta` options) becomes explicit data, and every generated code
path becomes a branch of an interpreter over that data.
-/

namespace ProstSerdeDerive

/-- Raw values yielded by the field source (`serde::de::MapAccess`).
`map.next_value::<T>()` succeeds exactly when the raw value matches the
shape the generated code requests (`String`, `Vec<String>`, the scalar
field type, or a sequence thereof). -/
inductive RawValue where
  | int (n : Int)
  | str (s : String)
  | intList (ns : List Int)
  | strList (ss : List String)
deriving DecidableEq, Repr

/-- Decoded values stored in the per-field accumulator slots and in the
finished record.  Byte buffers are lists of byte values (`< 256`). -/
inductive Value where
  | int (n : Int)
  | str (s : String)
  | bytes (bs : List Nat)
  | intList (ns : List Int)
  | strList (ss : List String)
  | bytesList (bss : List (List Nat))
deriving DecidableEq, Repr

/-- The errors the generated `visit_map` can raise, mirroring the
`serde::de::Error` constructors used in `deserialize.rs`:
`unknown_field` (generated `visit_str`, line 89), `duplicate_field`
(line 255), the deserializer's own type error from `map.next_value()?`
(modelled as `typeMismatch`), `unknown_variant` (lines 172 and 190),
`invalid_value(Str, "A base64 string")` (lines 215 and 238) and
`missing_field` (line 274). -/
inductive DecodeError where
  | unknownField (key : String)
  | duplicateField (name : String)
  | typeMismatch (name : String)
  | unknownEnumVariant (value : String)
  | invalidByteEncoding (raw : String)
  | missingField (name : String)
deriving DecidableEq, Repr

/-- The scalar leg of `ProstAttr.ty` is generic over the Rust field
type; the engine only passes such values through, so two representative
scalar element types suffice. -/
inductive ScalarTy where
  | int
  | str
deriving DecidableEq, Repr

/-- `ProtobufType` from `attr.rs` as consumed by `deserialize.rs`
(lines 154-250): an enumeration carries its `from_str_name` lookup
table (variant name to integer code), bytes carry no payload here, and
everything else is the scalar catch-all `_` arm. -/
inductive ProtobufType where
  | scalar (t : ScalarTy)
  | enumeration (table : List (String × Int))
  | bytes
deriving DecidableEq, Repr

/-- `FieldModifier`: `deserialize.rs` distinguishes `Repeated`
(line 261), `None` (line 266) and a catch-all `_ => {}` arm (line 278)
for any further modifier; `optional` stands for that catch-all (a field
of Rust type `Option<T>`). -/
inductive FieldModifier where
  | none
  | repeated
  | optional
deriving DecidableEq, Repr

/-- Static description of one record field, as the macro reads it off
the struct declaration: identifier, protobuf type, repetition modifier
and the optional `#default_value` expression
(`prost_attr.get_default_value()`, line 148).  The default expression
is spliced verbatim into several typed contexts of the generated code;
we model it as a raw value and coerce it at each use site. -/
structure FieldSchema where
  name : String
  ty : ProtobufType
  modifier : FieldModifier
  defaultValue : Option RawValue
deriving DecidableEq, Repr

/-- The two options `expand_visitor_impl` reads from `DeriveMeta`
(lines 142-143).  `omit_type_errors` is the spec's
`lenientOnTypeError`; `use_default_for_missing_fields` is the spec's
`useDefaultForMissing`.  No further option exists in the generated
code. -/
structure DeriveMeta where
  omit_type_errors : Bool
  use_default_for_missing_fields : Bool
deriving DecidableEq, Repr

/-- `map.next_value::<String>()`. -/
def readString : RawValue → Option String
  | .str s => some s
  | _ => none

/-- `map.next_value::<Vec<String>>()`. -/
def readStringList : RawValue → Option (List String)
  | .strList ss => some ss
  | _ => none

/-- `map.next_value()` at the scalar field's own type: the element type
for a non-repeated field, a sequence of it for a repeated one. -/
def readScalar (t : ScalarTy) (repeated : Bool) : RawValue → Option Value
  | .int n => if t = .int ∧ ¬repeated then some (.int n) else none
  | .str s => if t = .str ∧ ¬repeated then some (.str s) else none
  | .intList ns => if t = .int ∧ repeated then some (.intList ns) else none
  | .strList ss => if t = .str ∧ repeated then some (.strList ss) else none

/-- `next_value_getter` (deserialize.rs lines 117-140): when
`omit_type_errors && default_value.is_some()` the generated code is
`match map.next_value() { Ok(v) => v, Err(_) => #default_value }` —
the default expression replaces a failed read and no error escapes;
otherwise it is `map.next_value()?`, propagating the type error.  The
default expression necessarily has the read's target type in any
generated program that compiles; the final `typeMismatch` arm covers
the ill-typed-default case that rustc would reject, and is unreachable
under that well-typedness assumption. -/
def nextValueGetter (omitTypeErrors : Bool) (defaultValue : Option RawValue)
    (read : RawValue → Option α) (fname : String) (raw : RawValue) :
    Except DecodeError α :=
  if omitTypeErrors && defaultValue.isSome then
    match read raw with
    | some v => .ok v
    | Option.none =>
      match defaultValue.bind read with
      | some v => .ok v
      | Option.none => .error (.typeMismatch fname)
  else
    match read raw with
    | some v => .ok v
    | Option.none => .error (.typeMismatch fname)

/-- `#path::from_str_name(&value)` for the enumeration's table: the
variant whose name matches, as its `i32` code. -/
def fromStrName (table : List (String × Int)) (s : String) : Option Int :=
  (table.find? (fun p => p.1 == s)).map (·.2)

/-- The generated loop of the repeated-enumeration branch
(lines 165-175): resolve each name in order, pushing `v as i32`;
the first unresolvable name returns `unknown_variant`. -/
def enumDecodeAll (table : List (String × Int)) :
    List String → Except DecodeError (List Int)
  | [] => .ok []
  | v :: rest =>
    match fromStrName table v with
    | some c => (enumDecodeAll table rest).map (c :: ·)
    | Option.none => .error (.unknownEnumVariant v)

/-- Modelled from the spec: the `base64` crate called by the generated
bytes branches is an external dependency, specified as "standard
base64".  This is the RFC 4648 standard alphabet. -/
def b64Alphabet : List Char :=
  "ABCDEFGHIJKLMNOPQRSTUVWXYZabcdefghijklmnopqrstuvwxyz0123456789+/".toList

/-- The alphabet character for a 6-bit group. -/
def b64CharOf (n : Nat) : Char := b64Alphabet.getD n 'A'

/-- The 6-bit group for an alphabet character, if any. -/
def b64IndexOf (c : Char) : Option Nat := b64Alphabet.findIdx? (· == c)

/-- Modelled from the spec: standard base64 encoding of a byte buffer —
each 3-byte group becomes 4 alphabet characters; a trailing 2-byte or
1-byte group is padded with one or two characters of padding. -/
def b64EncodeList : List Nat → List Char
  | a :: b :: c :: rest =>
    b64CharOf (a / 4) :: b64CharOf (a % 4 * 16 + b / 16) ::
      b64CharOf (b % 16 * 4 + c / 64) :: b64CharOf (c % 64) :: b64EncodeList rest
  | [a, b] =>
    [b64CharOf (a / 4), b64CharOf (a % 4 * 16 + b / 16), b64CharOf (b % 16 * 4), '=']
  | [a] => [b64CharOf (a / 4), b64CharOf (a % 4 * 16), '=', '=']
  | [] => []

/-- Modelled from the spec: standard base64 decoding (`_base64::decode`),
strict: the input must consist of 4-character groups over the alphabet,
padding may appear only at the very end in its canonical one- or
two-character form, and the unused low bits of a final partial group
must be zero.  Any other string is rejected. -/
def b64DecodeList : List Char → Option (List Nat)
  | [] => some []
  | c1 :: c2 :: c3 :: c4 :: rest =>
    match b64IndexOf c1, b64IndexOf c2 with
    | some i1, some i2 =>
      if c3 = '=' then
        if c4 = '=' ∧ rest = [] ∧ i2 % 16 = 0 then some [i1 * 4 + i2 / 16]
        else Option.none
      else
        match b64IndexOf c3 with
        | some i3 =>
          if c4 = '=' then
            if rest = [] ∧ i3 % 4 = 0 then
              some [i1 * 4 + i2 / 16, i2 % 16 * 16 + i3 / 4]
            else Option.none
          else
            match b64IndexOf c4 with
            | some i4 =>
              match b64DecodeList rest with
              | some bs =>
                some ((i1 * 4 + i2 / 16) :: (i2 % 16 * 16 + i3 / 4) :: (i3 % 4 * 64 + i4) :: bs)
              | Option.none => Option.none
            | Option.none => Option.none
        | Option.none => Option.none
    | _, _ => Option.none
  | _ => Option.none

/-- Base64 encoding, producing the string fed to a bytes field. -/
def b64Encode (bs : List Nat) : String := String.mk (b64EncodeList bs)

/-- Base64 decoding of a field-source string. -/
def b64Decode (s : String) : Option (List Nat) := b64DecodeList s.toList

/-- The generated loop of the repeated-bytes branch (lines 206-222):
decode each string independently in order, pushing the buffer; the
first malformed entry returns `invalid_value` for that entry. -/
def bytesDecodeAll : List String → Except DecodeError (List (List Nat))
  | [] => .ok []
  | v :: rest =>
    match b64Decode v with
    | some bs => (bytesDecodeAll rest).map (bs :: ·)
    | Option.none => .error (.invalidByteEncoding v)

/-- The `#value_getter_expr` stored into a field's accumulator slot
(deserialize.rs lines 154-250), one branch per `ProtobufType` and
repetition: enumeration fields read a `String` (or `Vec<String>`) and
resolve names through `from_str_name`; bytes fields read a `String`
(or `Vec<String>`) and base64-decode; the scalar catch-all reads the
field's own type directly.  Every syntactic read goes through
`nextValueGetter`, so the leniency substitution applies there. -/
def decodeFieldValue (opts : DeriveMeta) (f : FieldSchema) (raw : RawValue) :
    Except DecodeError Value :=
  match f.ty with
  | .enumeration table =>
    match f.modifier with
    | .repeated =>
      match nextValueGetter opts.omit_type_errors f.defaultValue
          readStringList f.name raw with
      | .error e => .error e
      | .ok values =>
        match enumDecodeAll table values with
        | .error e => .error e
        | .ok result => .ok (.intList result)
    | _ =>
      match nextValueGetter opts.omit_type_errors f.defaultValue
          readString f.name raw with
      | .error e => .error e
      | .ok stringValue =>
        match fromStrName table stringValue with
        | some v => .ok (.int v)
        | Option.none => .error (.unknownEnumVariant stringValue)
  | .bytes =>
    match f.modifier with
    | .repeated =>
      match nextValueGetter opts.omit_type_errors f.defaultValue
          readStringList f.name raw with
      | .error e => .error e
      | .ok values =>
        match bytesDecodeAll values with
        | .error e => .error e
        | .ok result => .ok (.bytesList result)
    | _ =>
      match nextValueGetter opts.omit_type_errors f.defaultValue
          readString f.name raw with
      | .error e => .error e
      | .ok value =>
        match b64Decode value with
        | some v => .ok (.bytes v)
        | Option.none => .error (.invalidByteEncoding value)
  | .scalar t =>
    nextValueGetter opts.omit_type_errors f.defaultValue
      (readScalar t (f.modifier == .repeated)) f.name raw

/-- The generated `visit_map` accumulation loop (lines 299-304): for
each key of the field source, resolve it through the generated field
identifier deserializer (`visit_str`, lines 83-91 — an unknown key is
`unknown_field`, unconditionally); if the resolved field's slot is
already occupied fail with `duplicate_field` (lines 253-256), before
the value is even read; otherwise run the value getter and store the
result.  The accumulator maps field names to their decoded values;
this is faithful to the generated one-local-per-field code because a
Rust struct cannot declare two fields with the same name. -/
def visitMap (opts : DeriveMeta) (schema : List FieldSchema) :
    List (String × RawValue) → List (String × Value) →
    Except DecodeError (List (String × Value))
  | [], acc => .ok acc
  | (key, raw) :: rest, acc =>
    match schema.find? (fun f => f.name == key) with
    | Option.none => .error (.unknownField key)
    | some f =>
      if (acc.lookup f.name).isSome then
        .error (.duplicateField f.name)
      else
        match decodeFieldValue opts f raw with
        | .error e => .error e
        | .ok v => visitMap opts schema rest ((f.name, v) :: acc)

/-- The typed `vec![]` spliced by the repeated narrowing
(`unwrap_or(vec![])`, line 263): an empty sequence at the field's
element type. -/
def emptyRepeated (f : FieldSchema) : Value :=
  match f.ty with
  | .scalar .int => .intList []
  | .scalar .str => .strList []
  | .enumeration _ => .intList []
  | .bytes => .bytesList []

/-- Is a value one of the empty sequences? -/
def Value.isEmptySeq : Value → Bool
  | .intList ns => ns.isEmpty
  | .strList ss => ss.isEmpty
  | .bytesList bss => bss.isEmpty
  | _ => false

/-- The default expression read at final-value type, as the narrowing
`unwrap_or(#default)` (line 270) does. -/
def valueOfRaw : RawValue → Value
  | .int n => .int n
  | .str s => .str s
  | .intList ns => .intList ns
  | .strList ss => .strList ss

/-- One finished-record field: narrowed fields hold a value; a field
whose modifier falls into the catch-all arm keeps its accumulator
`Option` as the struct field value. -/
inductive FieldOut where
  | val (v : Value)
  | opt (v : Option Value)
deriving DecidableEq, Repr

/-- One generated narrowing statement (lines 260-279): `Repeated`
fields get `unwrap_or(vec![])`; `None` fields get `unwrap_or(#default)`
when `use_default_for_missing_fields && default_value.is_some()` and
otherwise `ok_or_else(missing_field)?`; any other modifier generates no
statement, the accumulator `Option` itself being the struct field. -/
def narrowField (opts : DeriveMeta) (f : FieldSchema) (slot : Option Value) :
    Except DecodeError FieldOut :=
  match f.modifier with
  | .repeated => .ok (.val (slot.getD (emptyRepeated f)))
  | FieldModifier.none =>
    match opts.use_default_for_missing_fields, f.defaultValue with
    | true, some d => .ok (.val (slot.getD (valueOfRaw d)))
    | _, _ =>
      match slot with
      | some v => .ok (.val v)
      | Option.none => .error (.missingField f.name)
  | .optional => .ok (.opt slot)

/-- The generated narrowing block (line 305): one statement per field,
in field declaration order, each propagating its error with the first
failing statement aborting the decode. -/
def narrow (opts : DeriveMeta) :
    List (FieldSchema × Option Value) → Except DecodeError (List FieldOut)
  | [] => .ok []
  | (f, slot) :: rest =>
    match narrowField opts f slot with
    | .error e => .error e
    | .ok out =>
      match narrow opts rest with
      | .error e => .error e
      | .ok outs => .ok (out :: outs)

/-- The whole generated `visit_map` (lines 295-310): accumulate every
key/value pair of the field source, then narrow every schema field in
declaration order into the finished record. -/
def decode (opts : DeriveMeta) (schema : List FieldSchema)
    (source : List (String × RawValue)) : Except DecodeError (List FieldOut) :=
  match visitMap opts schema source [] with
  | .error e => .error e
  | .ok acc => narrow opts (schema.map (fun f => (f, acc.lookup f.name)))

/-! ## Helper lemmas -/

/-- When the syntactic read succeeds, `nextValueGetter` returns its
result unchanged, under every option setting. -/
theorem nextValueGetter_read_some (o : Bool) (dflt : Option RawValue)
    (read : RawValue → Option α) (nm : String) (raw : RawValue) (v : α)
    (h : read raw = some v) :
    nextValueGetter o dflt read nm raw = .ok v := by
  unfold nextValueGetter
  split <;> simp [h]

/-- When the syntactic read fails while leniency is on and a default is
configured, `nextValueGetter` returns the default, read at the same
type. -/
theorem nextValueGetter_read_fail_default (dflt : RawValue)
    (read : RawValue → Option α) (nm : String) (raw : RawValue) (v : α)
    (h : read raw = Option.none) (hd : read dflt = some v) :
    nextValueGetter true (some dflt) read nm raw = .ok v := by
  simp [nextValueGetter, h, hd]

/-- When the syntactic read fails and either leniency is off or no
default is configured, `nextValueGetter` propagates the type error. -/
theorem nextValueGetter_read_fail_strict (o : Bool) (dflt : Option RawValue)
    (read : RawValue → Option α) (nm : String) (raw : RawValue)
    (h : read raw = Option.none)
    (hcase : o = false ∨ dflt = Option.none) :
    nextValueGetter o dflt read nm raw = .error (.typeMismatch nm) := by
  rcases hcase with ho | hd
  · simp [nextValueGetter, ho, h]
  · simp [nextValueGetter, hd, h]

/-- With the element names unique, `from_str_name` maps a name present
in the table to exactly its code. -/
theorem fromStrName_mem (table : List (String × Int)) (n : String) (c : Int)
    (hmem : (n, c) ∈ table) (hnd : (table.map Prod.fst).Nodup) :
    fromStrName table n = some c := by
  induction table with
  | nil => simp at hmem
  | cons p rest ih =>
    rcases p with ⟨m, k⟩
    simp only [List.map_cons, List.nodup_cons] at hnd
    by_cases hm : m = n
    · subst hm
      have : (m, c) = (m, k) := by
        rcases List.mem_cons.mp hmem with h | h
        · exact h
        · exact absurd (List.mem_map_of_mem Prod.fst h) hnd.1
      simp only [Prod.mk.injEq, true_and] at this
      subst this
      simp [fromStrName, List.find?_cons_of_pos]
    · have hrest : (n, c) ∈ rest := by
        rcases List.mem_cons.mp hmem with h | h
        · exact absurd (congrArg Prod.fst h).symm hm
        · exact h
      have := ih hrest hnd.2
      simpa [fromStrName, List.find?_cons_of_neg, hm] using this

/-- A schema/slot pair on which the generated narrowing statement fails:
a non-repeated field whose slot is absent and for which the
default-for-missing escape does not apply. -/
def isMissingRequired (opts : DeriveMeta) (p : FieldSchema × Option Value) : Bool :=
  p.1.modifier == FieldModifier.none && p.2.isNone &&
    !(opts.use_default_for_missing_fields && p.1.defaultValue.isSome)

/-- A missing-required pair makes its narrowing statement fail with
`missing_field`. -/
theorem narrowField_missing (opts : DeriveMeta) (f : FieldSchema)
    (slot : Option Value) (h : isMissingRequired opts (f, slot) = true) :
    narrowField opts f slot = .error (.missingField f.name) := by
  rcases f with ⟨nm, ty, mod, dv⟩
  rcases opts with ⟨o1, o2⟩
  cases mod <;> cases slot <;> cases o2 <;> cases dv <;>
    simp_all [isMissingRequired, narrowField]

/-- Any pair that is not missing-required narrows successfully. -/
theorem narrowField_ok_of_not_missing (opts : DeriveMeta) (f : FieldSchema)
    (slot : Option Value) (h : isMissingRequired opts (f, slot) = false) :
    ∃ out, narrowField opts f slot = .ok out := by
  rcases f with ⟨nm, ty, mod, dv⟩
  rcases opts with ⟨o1, o2⟩
  cases mod <;> cases slot <;> cases o2 <;> cases dv <;>
    first
      | exact ⟨_, rfl⟩
      | simp_all [isMissingRequired, narrowField]

/-- The narrowing block fails with the `missing_field` error of the
first missing-required pair, in list (= declaration) order, and
succeeds when no pair is missing-required. -/
theorem narrow_first_missing (opts : DeriveMeta)
    (pairs : List (FieldSchema × Option Value)) (f : FieldSchema)
    (slot : Option Value) :
    (pairs.find? (isMissingRequired opts) = some (f, slot) →
      narrow opts pairs = .error (.missingField f.name)) ∧
    (pairs.find? (isMissingRequired opts) = Option.none →
      (narrow opts pairs).isOk = true) := by
  induction pairs with
  | nil =>
    refine ⟨fun h => by simp at h, fun _ => ?_⟩
    simp [narrow, Except.isOk, Except.toBool]
  | cons p rest ih =>
    rcases p with ⟨g, s⟩
    by_cases hmr : isMissingRequired opts (g, s) = true
    · refine ⟨fun h => ?_, fun h => ?_⟩
      · rw [List.find?_cons_of_pos _ hmr] at h
        obtain ⟨hg, hs⟩ : g = f ∧ s = slot := by
          have := Option.some.inj h
          exact ⟨congrArg Prod.fst this, congrArg Prod.snd this⟩
        subst hg; subst hs
        simp [narrow, narrowField_missing opts g s hmr]
      · rw [List.find?_cons_of_pos _ hmr] at h
        exact absurd h (by simp)
    · have hmr' : isMissingRequired opts (g, s) = false := by
        simpa using hmr
      obtain ⟨out, hout⟩ := narrowField_ok_of_not_missing opts g s hmr'
      refine ⟨fun h => ?_, fun h => ?_⟩
      · rw [List.find?_cons_of_neg _ hmr] at h
        simp [narrow, hout, ih.1 h]
      · rw [List.find?_cons_of_neg _ hmr] at h
        have hrest := ih.2 h
        cases hnr : narrow opts rest with
        | error e => rw [hnr] at hrest; simp [Except.isOk, Except.toBool] at hrest
        | ok outs => simp [narrow, hout, hnr, Except.isOk, Except.toBool]

/-! ## Claim theorems -/

/-- Claim C1, counterexample: the generated decoder has no
`ignoreUnknownFields` knob — its only options are the two `DeriveMeta`
booleans — and under every one of the four possible option settings a
key matching no declared field name is a fatal unknown-field error;
no setting skips the pair. -/
theorem c1_counterexample :
    (decode ⟨false, false⟩ [⟨"id", .scalar .int, .none, Option.none⟩]
      [("bogus", .int 1), ("id", .int 7)] = .error (.unknownField "bogus")) ∧
    (decode ⟨false, true⟩ [⟨"id", .scalar .int, .none, Option.none⟩]
      [("bogus", .int 1), ("id", .int 7)] = .error (.unknownField "bogus")) ∧
    (decode ⟨true, false⟩ [⟨"id", .scalar .int, .none, Option.none⟩]
      [("bogus", .int 1), ("id", .int 7)] = .error (.unknownField "bogus")) ∧
    (decode ⟨true, true⟩ [⟨"id", .scalar .int, .none, Option.none⟩]
      [("bogus", .int 1), ("id", .int 7)] = .error (.unknownField "bogus")) :=
  ⟨rfl, rfl, rfl, rfl⟩

/-- Claim C1, amended: when a field-source key matches no declared
field name, the accumulation loop fails with an unknown-field error
under every option setting; the generated code offers no
`ignoreUnknownFields` option and never skips a key/value pair. -/
theorem c1_unknown_field_always_fatal (opts : DeriveMeta)
    (schema : List FieldSchema) (key : String) (raw : RawValue)
    (rest : List (String × RawValue)) (acc : List (String × Value))
    (h : schema.find? (fun f => f.name == key) = Option.none) :
    visitMap opts schema ((key, raw) :: rest) acc = .error (.unknownField key) := by
  simp [visitMap, h]

/-- Witness for C1's theorem at a concrete schema and source. -/
theorem c1_unknown_field_always_fatal_witness :
    visitMap ⟨true, true⟩ [⟨"id", .scalar .int, .none, Option.none⟩]
      [("bogus", .int 1)] [] = .error (.unknownField "bogus") :=
  c1_unknown_field_always_fatal ⟨true, true⟩ _ "bogus" (.int 1) [] [] (by decide)

/-- Claim C3, counterexample: the field name `id` appears twice in the
source, yet the decode fails with a type error, not `DuplicateField`:
the first occurrence's value fails to decode, so the claim's
"regardless of the values supplied" does not hold. -/
theorem c3_counterexample :
    decode ⟨false, false⟩ [⟨"id", .scalar .int, .none, Option.none⟩]
      [("id", .str "oops"), ("id", .int 1)] = .error (.typeMismatch "id") ∧
    DecodeError.typeMismatch "id" ≠ DecodeError.duplicateField "id" :=
  ⟨rfl, by decide⟩

/-- Claim C3, amended: when a key resolves to a field whose accumulator
slot is already present, the whole decode fails with
`DuplicateField(name)` regardless of the value supplied at that
occurrence — the value is never read.  A name appearing twice therefore
fails with `DuplicateField` provided the decode reaches the second
occurrence; if the first occurrence's value itself fails to decode,
that earlier error is reported instead. -/
theorem c3_duplicate_field (opts : DeriveMeta) (schema : List FieldSchema)
    (key : String) (raw : RawValue) (rest : List (String × RawValue))
    (acc : List (String × Value)) (f : FieldSchema)
    (hf : schema.find? (fun g => g.name == key) = some f)
    (hdup : (acc.lookup f.name).isSome = true) :
    visitMap opts schema ((key, raw) :: rest) acc = .error (.duplicateField f.name) := by
  simp [visitMap, hf, hdup]

/-- Witness for C3's amended theorem: the second occurrence of `id`
carries an ill-typed value, yet the failure is `DuplicateField`. -/
theorem c3_duplicate_field_witness :
    visitMap ⟨false, false⟩ [⟨"id", .scalar .int, .none, Option.none⟩]
      [("id", .str "oops")] [("id", .int 1)] = .error (.duplicateField "id") :=
  c3_duplicate_field ⟨false, false⟩ _ "id" (.str "oops") [] _
    ⟨"id", .scalar .int, .none, Option.none⟩ (by decide) (by decide)

/-- Claim C4: at narrowing, a non-repeated field whose slot is absent
yields the configured default with no error when
`use_default_for_missing_fields` is enabled and a default exists;
otherwise the decode fails with `MissingField(name)`. -/
theorem c4_missing_nonrepeated (opts : DeriveMeta) (f : FieldSchema)
    (d : RawValue) (hmod : f.modifier = .none) :
    (opts.use_default_for_missing_fields = true → f.defaultValue = some d →
      narrowField opts f Option.none = .ok (.val (valueOfRaw d))) ∧
    (opts.use_default_for_missing_fields = false ∨ f.defaultValue = Option.none →
      narrowField opts f Option.none = .error (.missingField f.name)) := by
  constructor
  · intro huse hdef
    simp [narrowField, hmod, huse, hdef]
  · intro hcase
    rcases hcase with huse | hdef
    · simp [narrowField, hmod, huse]
    · simp [narrowField, hmod, hdef]

/-- Witness for C4 at a concrete field, covering both conjuncts. -/
theorem c4_missing_nonrepeated_witness :
    narrowField ⟨false, true⟩ ⟨"id", .scalar .int, .none, some (.int 3)⟩
      Option.none = .ok (.val (.int 3)) ∧
    narrowField ⟨false, false⟩ ⟨"id", .scalar .int, .none, some (.int 3)⟩
      Option.none = .error (.missingField "id") :=
  ⟨(c4_missing_nonrepeated ⟨false, true⟩ _ (.int 3) rfl).1 rfl rfl,
   (c4_missing_nonrepeated ⟨false, false⟩ _ (.int 3) rfl).2 (Or.inl rfl)⟩

/-- Claim C7: a repeated field whose slot is still absent at narrowing
is narrowed to the empty sequence of its element type, and narrowing a
repeated field never errors, whatever the slot holds. -/
theorem c7_repeated_absent_empty (opts : DeriveMeta) (f : FieldSchema)
    (slot : Option Value) (hmod : f.modifier = .repeated) :
    narrowField opts f Option.none = .ok (.val (emptyRepeated f)) ∧
    (emptyRepeated f).isEmptySeq = true ∧
    (narrowField opts f slot).isOk = true := by
  refine ⟨by simp [narrowField, hmod], ?_, by simp [narrowField, hmod, Except.isOk, Except.toBool]⟩
  rcases f with ⟨name, ty, mod, d⟩
  rcases ty with t | table | _
  · cases t <;> simp [emptyRepeated, Value.isEmptySeq]
  · simp [emptyRepeated, Value.isEmptySeq]
  · simp [emptyRepeated, Value.isEmptySeq]

/-- Witness for C7 at a concrete repeated field. -/
theorem c7_repeated_absent_empty_witness :
    narrowField ⟨false, false⟩ ⟨"tags", .scalar .str, .repeated, Option.none⟩
      Option.none = .ok (.val (.strList [])) ∧
    Value.isEmptySeq (.strList []) = true ∧
    (narrowField ⟨false, false⟩ ⟨"tags", .scalar .str, .repeated, Option.none⟩
      (some (.strList ["a"]))).isOk = true :=
  c7_repeated_absent_empty ⟨false, false⟩ _ (some (.strList ["a"])) rfl

/-- Claim C10: a field whose repetition modifier falls into the
catch-all arm (neither `Repeated` nor `None`) gets no narrowing
statement — its finished-record value is the raw accumulator `Option`
itself — and its absence never produces a `MissingField` error. -/
theorem c10_other_modifier_passthrough (opts : DeriveMeta) (f : FieldSchema)
    (slot : Option Value) (hmod : f.modifier = .optional) :
    narrowField opts f slot = .ok (.opt slot) := by
  simp [narrowField, hmod]

/-- Witness for C10 at a concrete optional field, absent slot. -/
theorem c10_other_modifier_passthrough_witness :
    narrowField ⟨false, false⟩ ⟨"note", .scalar .str, .optional, Option.none⟩
      Option.none = .ok (.opt Option.none) :=
  c10_other_modifier_passthrough ⟨false, false⟩ _ Option.none rfl

/-- Claim C2: for a repeated scalar field, when the raw value cannot be
read as a sequence of the element type, leniency with a configured
default substitutes the default sequence with no error; without
leniency, or without a configured default, the mismatch is a fatal
type error. -/
theorem c2_repeated_scalar_leniency (opts : DeriveMeta) (name : String)
    (t : ScalarTy) (raw d : RawValue) (dv : Value)
    (hraw : readScalar t true raw = Option.none) :
    (opts.omit_type_errors = true → readScalar t true d = some dv →
      decodeFieldValue opts ⟨name, .scalar t, .repeated, some d⟩ raw = .ok dv) ∧
    (opts.omit_type_errors = false →
      decodeFieldValue opts ⟨name, .scalar t, .repeated, some d⟩ raw =
        .error (.typeMismatch name)) ∧
    decodeFieldValue opts ⟨name, .scalar t, .repeated, Option.none⟩ raw =
      .error (.typeMismatch name) := by
  refine ⟨fun homit hd => ?_, fun homit => ?_, ?_⟩
  · simpa [decodeFieldValue, homit] using
      nextValueGetter_read_fail_default d (readScalar t true) name raw dv hraw hd
  · simpa [decodeFieldValue] using
      nextValueGetter_read_fail_strict opts.omit_type_errors (some d)
        (readScalar t true) name raw hraw (Or.inl homit)
  · simpa [decodeFieldValue] using
      nextValueGetter_read_fail_strict opts.omit_type_errors Option.none
        (readScalar t true) name raw hraw (Or.inr rfl)

/-- Witness for C2: all three conjuncts at concrete inputs — a raw
string where an integer sequence is expected, under leniency with the
default sequence, without leniency, and without a default. -/
theorem c2_repeated_scalar_leniency_witness :
    (decodeFieldValue ⟨true, false⟩ ⟨"ns", .scalar .int, .repeated, some (.intList [7])⟩
      (.str "oops") = .ok (.intList [7])) ∧
    (decodeFieldValue ⟨false, false⟩ ⟨"ns", .scalar .int, .repeated, some (.intList [7])⟩
      (.str "oops") = .error (.typeMismatch "ns")) ∧
    decodeFieldValue ⟨false, false⟩ ⟨"ns", .scalar .int, .repeated, Option.none⟩
      (.str "oops") = .error (.typeMismatch "ns") :=
  ⟨(c2_repeated_scalar_leniency ⟨true, false⟩ "ns" .int (.str "oops")
      (.intList [7]) (.intList [7]) rfl).1 rfl rfl,
   (c2_repeated_scalar_leniency ⟨false, false⟩ "ns" .int (.str "oops")
      (.intList [7]) (.intList [7]) rfl).2.1 rfl,
   (c2_repeated_scalar_leniency ⟨false, false⟩ "ns" .int (.str "oops")
      (.intList [7]) (.intList [7]) rfl).2.2⟩

/-- Claim C5: for a name present in an enumeration field's lookup table
(unique names), decoding that name yields exactly the corresponding
integer code; for any string not in the table, decoding fails with
`UnknownEnumVariant` — under every option setting, so independent of
`omit_type_errors`. -/
theorem c5_enum_lookup (opts : DeriveMeta) (name : String)
    (table : List (String × Int)) (dflt : Option RawValue) (n : String) (c : Int) :
    ((n, c) ∈ table → (table.map Prod.fst).Nodup →
      decodeFieldValue opts ⟨name, .enumeration table, .none, dflt⟩ (.str n) =
        .ok (.int c)) ∧
    (fromStrName table n = Option.none →
      decodeFieldValue opts ⟨name, .enumeration table, .none, dflt⟩ (.str n) =
        .error (.unknownEnumVariant n)) := by
  have hget := nextValueGetter_read_some opts.omit_type_errors dflt readString
    name (.str n) n rfl
  constructor
  · intro hmem hnd
    simp [decodeFieldValue, hget, fromStrName_mem table n c hmem hnd]
  · intro hnone
    simp [decodeFieldValue, hget, hnone]

/-- Witness for C5 on the table ACTIVE to 0, DONE to 1, with leniency
enabled: known name DONE decodes to 1, unknown name OTHER fails. -/
theorem c5_enum_lookup_witness :
    (decodeFieldValue ⟨true, false⟩
      ⟨"status", .enumeration [("ACTIVE", 0), ("DONE", 1)], .none, Option.none⟩
      (.str "DONE") = .ok (.int 1)) ∧
    decodeFieldValue ⟨true, false⟩
      ⟨"status", .enumeration [("ACTIVE", 0), ("DONE", 1)], .none, Option.none⟩
      (.str "OTHER") = .error (.unknownEnumVariant "OTHER") :=
  ⟨(c5_enum_lookup ⟨true, false⟩ "status" [("ACTIVE", 0), ("DONE", 1)]
      Option.none "DONE" 1).1 (by decide) (by decide),
   (c5_enum_lookup ⟨true, false⟩ "status" [("ACTIVE", 0), ("DONE", 1)]
      Option.none "OTHER" 1).2 (by decide)⟩

/-- Claim C9: with leniency on and a default configured, the lenient
substitution applies to the syntactic read stage of enumeration and
bytes fields: a raw value unreadable as a `String` (or `Vec<String>`
when repeated) is replaced by the default expression, which is then fed
into the enum-name lookup or base64 decode rather than returned
directly. -/
theorem c9_lenient_substitution_feeds_stage_two (b : Bool)
    (name : String) (table : List (String × Int)) (d raw : RawValue) :
    (∀ ds, readString raw = Option.none → readString d = some ds →
      decodeFieldValue ⟨true, b⟩ ⟨name, .enumeration table, .none, some d⟩ raw =
        match fromStrName table ds with
        | some c => .ok (.int c)
        | Option.none => .error (.unknownEnumVariant ds)) ∧
    (∀ ds, readString raw = Option.none → readString d = some ds →
      decodeFieldValue ⟨true, b⟩ ⟨name, .bytes, .none, some d⟩ raw =
        match b64Decode ds with
        | some bs => .ok (.bytes bs)
        | Option.none => .error (.invalidByteEncoding ds)) ∧
    (∀ dss, readStringList raw = Option.none → readStringList d = some dss →
      decodeFieldValue ⟨true, b⟩ ⟨name, .enumeration table, .repeated, some d⟩ raw =
        match enumDecodeAll table dss with
        | .ok cs => .ok (.intList cs)
        | .error e => .error e) ∧
    (∀ dss, readStringList raw = Option.none → readStringList d = some dss →
      decodeFieldValue ⟨true, b⟩ ⟨name, .bytes, .repeated, some d⟩ raw =
        match bytesDecodeAll dss with
        | .ok bss => .ok (.bytesList bss)
        | .error e => .error e) := by
  refine ⟨fun ds hraw hd => ?_, fun ds hraw hd => ?_,
    fun dss hraw hd => ?_, fun dss hraw hd => ?_⟩
  · have hg := nextValueGetter_read_fail_default d readString name raw ds hraw hd
    simp only [decodeFieldValue, hg]
  · have hg := nextValueGetter_read_fail_default d readString name raw ds hraw hd
    simp only [decodeFieldValue, hg]
  · have hg := nextValueGetter_read_fail_default d readStringList name raw dss hraw hd
    simp only [decodeFieldValue, hg]
    cases enumDecodeAll table dss <;> rfl
  · have hg := nextValueGetter_read_fail_default d readStringList name raw dss hraw hd
    simp only [decodeFieldValue, hg]
    cases bytesDecodeAll dss <;> rfl

/-- Witness for C9: an integer raw value where a string is expected,
with defaults DONE (fed into the enum table, giving code 1) and TWE=
(fed into base64 decode, giving the two-byte buffer), plus the repeated
analogues. -/
theorem c9_lenient_substitution_feeds_stage_two_witness :
    (decodeFieldValue ⟨true, false⟩
      ⟨"status", .enumeration [("ACTIVE", 0), ("DONE", 1)], .none, some (.str "DONE")⟩
      (.int 5) = .ok (.int 1)) ∧
    (decodeFieldValue ⟨true, false⟩
      ⟨"data", .bytes, .none, some (.str "TWE=")⟩ (.int 5) =
        .ok (.bytes [77, 97])) ∧
    (decodeFieldValue ⟨true, false⟩
      ⟨"statuses", .enumeration [("ACTIVE", 0), ("DONE", 1)], .repeated,
        some (.strList ["DONE", "ACTIVE"])⟩ (.int 5) = .ok (.intList [1, 0])) ∧
    decodeFieldValue ⟨true, false⟩
      ⟨"datas", .bytes, .repeated, some (.strList ["TQ=="])⟩ (.int 5) =
        .ok (.bytesList [[77]]) := by
  have h := c9_lenient_substitution_feeds_stage_two false "status"
    [("ACTIVE", 0), ("DONE", 1)] (.str "DONE") (.int 5)
  have h2 := c9_lenient_substitution_feeds_stage_two false "data"
    [("ACTIVE", 0), ("DONE", 1)] (.str "TWE=") (.int 5)
  have h3 := c9_lenient_substitution_feeds_stage_two false "statuses"
    [("ACTIVE", 0), ("DONE", 1)] (.strList ["DONE", "ACTIVE"]) (.int 5)
  have h4 := c9_lenient_substitution_feeds_stage_two false "datas"
    [("ACTIVE", 0), ("DONE", 1)] (.strList ["TQ=="]) (.int 5)
  exact ⟨h.1 "DONE" rfl rfl, h2.2.1 "TWE=" rfl rfl,
    h3.2.2.1 ["DONE", "ACTIVE"] rfl rfl, h4.2.2.2 ["TQ=="] rfl rfl⟩

/-- Claim C8: narrowing runs one statement per schema field, in
declaration order, over the accumulator alone — so its outcome is
independent of the order in which keys were read (third conjunct: two
accumulations with the same per-field lookups narrow identically), and
when several required fields are absent the decode reports the
`MissingField` of the first missing-required field in schema
declaration order (first conjunct), never erroring when no field is
missing-required (second conjunct). -/
theorem c8_narrowing_schema_order (opts : DeriveMeta)
    (schema : List FieldSchema) (src : List (String × RawValue))
    (acc : List (String × Value)) (f : FieldSchema) (slot : Option Value) :
    (visitMap opts schema src [] = .ok acc →
      (schema.map (fun g => (g, acc.lookup g.name))).find?
          (isMissingRequired opts) = some (f, slot) →
      decode opts schema src = .error (.missingField f.name)) ∧
    ((schema.map (fun g => (g, acc.lookup g.name))).find?
        (isMissingRequired opts) = Option.none →
      (narrow opts (schema.map (fun g => (g, acc.lookup g.name)))).isOk = true) ∧
    (∀ acc2 : List (String × Value),
      (∀ g ∈ schema, acc.lookup g.name = acc2.lookup g.name) →
      narrow opts (schema.map (fun g => (g, acc.lookup g.name))) =
        narrow opts (schema.map (fun g => (g, acc2.lookup g.name)))) := by
  refine ⟨fun hvm hfind => ?_, fun hfind => ?_, fun acc2 hsame => ?_⟩
  · unfold decode
    rw [hvm]
    exact (narrow_first_missing opts _ f slot).1 hfind
  · exact (narrow_first_missing opts _ f slot).2 hfind
  · have : schema.map (fun g => (g, acc.lookup g.name)) =
        schema.map (fun g => (g, acc2.lookup g.name)) :=
      List.map_congr_left (fun g hg => by rw [hsame g hg])
    rw [this]

/-- Witness for C8: schema `a, b, c`, all required, source supplying
only `c` — the reported missing field is `a`, the first in schema
declaration order, not in input order; and a fully-supplied
accumulator narrows successfully. -/
theorem c8_narrowing_schema_order_witness :
    decode ⟨false, false⟩
      [⟨"a", .scalar .int, .none, Option.none⟩,
       ⟨"b", .scalar .int, .none, Option.none⟩,
       ⟨"c", .scalar .int, .none, Option.none⟩]
      [("c", .int 3)] = .error (.missingField "a") ∧
    (narrow ⟨false, false⟩
      (List.map (fun g => (g, List.lookup g.name [("a", Value.int 1)]))
        [⟨"a", .scalar .int, .none, Option.none⟩])).isOk = true :=
  ⟨(c8_narrowing_schema_order ⟨false, false⟩
      [⟨"a", .scalar .int, .none, Option.none⟩,
       ⟨"b", .scalar .int, .none, Option.none⟩,
       ⟨"c", .scalar .int, .none, Option.none⟩]
      [("c", .int 3)] [("c", .int 3)]
      ⟨"a", .scalar .int, .none, Option.none⟩ Option.none).1 rfl rfl,
   (c8_narrowing_schema_order ⟨false, false⟩
      [⟨"a", .scalar .int, .none, Option.none⟩] [] [("a", Value.int 1)]
      ⟨"a", .scalar .int, .none, Option.none⟩ Option.none).2.1 rfl⟩

/-- Index/character roundtrip over the whole alphabet, by enumeration. -/
theorem b64IndexOf_b64CharOf_fin (n : Fin 64) :
    b64IndexOf (b64CharOf n.val) = some n.val := by revert n; decide

/-- No alphabet character is the padding character, by enumeration. -/
theorem b64CharOf_ne_pad_fin (n : Fin 64) : b64CharOf n.val ≠ '=' := by
  revert n; decide

/-- Index/character roundtrip for any 6-bit group. -/
theorem b64IndexOf_b64CharOf (n : Nat) (h : n < 64) :
    b64IndexOf (b64CharOf n) = some n :=
  b64IndexOf_b64CharOf_fin ⟨n, h⟩

/-- No 6-bit group encodes to the padding character. -/
theorem b64CharOf_ne_pad (n : Nat) (h : n < 64) : b64CharOf n ≠ '=' :=
  b64CharOf_ne_pad_fin ⟨n, h⟩

/-- Standard base64 roundtrip at the character-list level: decoding the
encoding of any byte buffer recovers the buffer. -/
theorem b64DecodeList_b64EncodeList (bs : List Nat) (h : ∀ x ∈ bs, x < 256) :
    b64DecodeList (b64EncodeList bs) = some bs := by
  induction bs using b64EncodeList.induct with
  | case1 a b c rest ih =>
    have ha : a < 256 := h a (by simp)
    have hb : b < 256 := h b (by simp)
    have hc : c < 256 := h c (by simp)
    have hrest : ∀ x ∈ rest, x < 256 := fun x hx => h x (by simp [hx])
    have H1 := b64IndexOf_b64CharOf (a / 4) (by omega)
    have H2 := b64IndexOf_b64CharOf (a % 4 * 16 + b / 16) (by omega)
    have H3 := b64IndexOf_b64CharOf (b % 16 * 4 + c / 64) (by omega)
    have H4 := b64IndexOf_b64CharOf (c % 64) (by omega)
    have N3 := b64CharOf_ne_pad (b % 16 * 4 + c / 64) (by omega)
    have N4 := b64CharOf_ne_pad (c % 64) (by omega)
    simp [b64EncodeList, b64DecodeList, H1, H2, H3, H4, N3, N4, ih hrest]
    omega
  | case2 a b =>
    have ha : a < 256 := h a (by simp)
    have hb : b < 256 := h b (by simp)
    have H1 := b64IndexOf_b64CharOf (a / 4) (by omega)
    have H2 := b64IndexOf_b64CharOf (a % 4 * 16 + b / 16) (by omega)
    have H3 := b64IndexOf_b64CharOf (b % 16 * 4) (by omega)
    have N3 := b64CharOf_ne_pad (b % 16 * 4) (by omega)
    have hc3 : b % 16 * 4 % 4 = 0 := by omega
    simp [b64EncodeList, b64DecodeList, H1, H2, H3, N3, hc3]
    omega
  | case3 a =>
    have ha : a < 256 := h a (by simp)
    have H1 := b64IndexOf_b64CharOf (a / 4) (by omega)
    have H2 := b64IndexOf_b64CharOf (a % 4 * 16) (by omega)
    have hc2 : a % 4 * 16 % 16 = 0 := by omega
    simp [b64EncodeList, b64DecodeList, H1, H2, hc2]
    omega
  | case4 => rfl

/-- Standard base64 roundtrip at the string level. -/
theorem b64Decode_b64Encode (bs : List Nat) (h : ∀ x ∈ bs, x < 256) :
    b64Decode (b64Encode bs) = some bs :=
  b64DecodeList_b64EncodeList bs h

/-- The repeated-bytes loop fails on the first malformed entry with
that entry's `invalid_value` error, whatever follows it. -/
theorem bytesDecodeAll_first_error (pre : List String) (bad : String)
    (post : List String) (hpre : ∀ t ∈ pre, (b64Decode t).isSome = true)
    (hbad : b64Decode bad = Option.none) :
    bytesDecodeAll (pre ++ bad :: post) = .error (.invalidByteEncoding bad) := by
  induction pre with
  | nil => simp [bytesDecodeAll, hbad]
  | cons t ts ih =>
    have ht := hpre t (by simp)
    obtain ⟨bs2, hbs⟩ := Option.isSome_iff_exists.mp ht
    have hts : ∀ u ∈ ts, (b64Decode u).isSome = true :=
      fun u hu => hpre u (by simp [hu])
    simp [bytesDecodeAll, hbs, ih hts, Except.map]

/-- Claim C6: a byte buffer encoded to standard base64 decodes back to
the original buffer through a bytes field; any string the base64
decoder rejects makes the bytes field fail with `InvalidByteEncoding`
under every option setting; and in a repeated bytes field the first
malformed entry aborts the whole field with its error. -/
theorem c6_bytes_base64 (opts : DeriveMeta) (name : String)
    (dflt : Option RawValue) (bs : List Nat) (s : String)
    (pre : List String) (bad : String) (post : List String) :
    ((∀ x ∈ bs, x < 256) →
      decodeFieldValue opts ⟨name, .bytes, .none, dflt⟩ (.str (b64Encode bs)) =
        .ok (.bytes bs)) ∧
    (b64Decode s = Option.none →
      decodeFieldValue opts ⟨name, .bytes, .none, dflt⟩ (.str s) =
        .error (.invalidByteEncoding s)) ∧
    ((∀ t ∈ pre, (b64Decode t).isSome = true) → b64Decode bad = Option.none →
      decodeFieldValue opts ⟨name, .bytes, .repeated, dflt⟩
          (.strList (pre ++ bad :: post)) =
        .error (.invalidByteEncoding bad)) := by
  refine ⟨fun hbs => ?_, fun hs => ?_, fun hpre hbad => ?_⟩
  · have hget := nextValueGetter_read_some opts.omit_type_errors dflt readString
      name (.str (b64Encode bs)) (b64Encode bs) rfl
    simp [decodeFieldValue, hget, b64Decode_b64Encode bs hbs]
  · have hget := nextValueGetter_read_some opts.omit_type_errors dflt readString
      name (.str s) s rfl
    simp [decodeFieldValue, hget, hs]
  · have hget := nextValueGetter_read_some opts.omit_type_errors dflt
      readStringList name (.strList (pre ++ bad :: post)) (pre ++ bad :: post) rfl
    simp [decodeFieldValue, hget, bytesDecodeAll_first_error pre bad post hpre hbad]

/-- Witness for C6: the buffer 77 97 110 encodes to TWFu and decodes
back; the non-base64 string of four percent signs is rejected; and in
a repeated field a valid entry followed by a malformed one aborts with
the malformed entry's error. -/
theorem c6_bytes_base64_witness :
    (decodeFieldValue ⟨false, false⟩ ⟨"data", .bytes, .none, Option.none⟩
      (.str (b64Encode [77, 97, 110])) = .ok (.bytes [77, 97, 110])) ∧
    (decodeFieldValue ⟨true, false⟩ ⟨"data", .bytes, .none, Option.none⟩
      (.str "%%%%") = .error (.invalidByteEncoding "%%%%")) ∧
    decodeFieldValue ⟨false, false⟩ ⟨"datas", .bytes, .repeated, Option.none⟩
      (.strList ["TWFu", "%"]) = .error (.invalidByteEncoding "%") :=
  ⟨(c6_bytes_base64 ⟨false, false⟩ "data" Option.none [77, 97, 110] ""
      [] "" []).1 (by decide),
   (c6_bytes_base64 ⟨true, false⟩ "data" Option.none [] "%%%%"
      [] "" []).2.1 (by decide),
   (c6_bytes_base64 ⟨false, false⟩ "datas" Option.none [] ""
      ["TWFu"] "%" []).2.2 (by decide) (by decide)⟩

end ProstSerdeDerive
